import Mathlib

/-
Verification of the scope-aware allocation tracker of the lint rule
`no-allocation-in-props` (src/lib/rules/no-allocation-in-props.js).

The rule flags array/object literals supplied as component prop values,
directly or through a `const` binding. We shallowly embed the rule body:

* `Config` mirrors the resolved rule options.
* `Expr` covers the expression shapes the rule distinguishes:
  conditional (ternary) expressions, array literals, object literals,
  identifiers (carrying their name), and every other shape collapsed
  into `other` (the rule inspects nothing else).
* The registry `blockVariableNameSets` is a map from a block's source
  start offset to a pair of name sets (`array`, `object`). JS `Set`s are
  modelled as duplicate-free lists (insertion appends when absent);
  JS objects keyed by number are modelled as `Nat -> Option BlockSets`.
* Accessing a missing registry record in JS throws a `TypeError`
  (`Object.keys(undefined)` / reading a field of `undefined`); fallible
  paths therefore live in `Except String`.
* `context.report` is modelled by returning the list of emitted
  diagnostics (each diagnostic is the violation kind of its fixed
  message); the handlers below return those lists explicitly.
* `context.getAncestors` is external: handlers receive the already
  computed innermost-to-outermost chain of enclosing block start
  offsets (`getBlockStatementAncestors` reverses the root-first
  ancestor list and keeps the block statements, so the chain parameter
  is innermost first).
* The DOM-ness predicate `jsxUtil.isDOMComponent` and the factory-call
  predicate `isCreateElement` are external collaborators; handlers
  receive their boolean results.
-/

/-- Violation kinds, keyed `array` / `object` exactly as in the rule's
`violationMessageStore`. -/
inductive VType where
  | array
  | object
deriving DecidableEq, Repr

/-- Fixed diagnostic messages of `violationMessageStore`. -/
def violationMessageStore : VType → String
  | VType.array => "Props should not use array allocations"
  | VType.object => "Props should not use object allocations"

/-- Resolved configuration object (all defaults are `false`). -/
structure Config where
  allowArrays : Bool
  allowObjects : Bool
  ignoreDOMComponents : Bool
deriving DecidableEq, Repr

/-- Expression shapes the classifier distinguishes. `other` stands for
every node type that is none of the first four. -/
inductive Expr where
  | cond (test consequent alternate : Expr)
  | arrayLit
  | objectLit
  | ident (name : String)
  | other
deriving DecidableEq, Repr

/-- Record for one block: the two name sets created by
`setBlockVariableNameSet` (`array: new Set(), object: new Set()`). -/
structure BlockSets where
  array : List String
  object : List String
deriving DecidableEq, Repr

/-- The mutable `blockVariableNameSets` object, keyed by the block's
source start offset (`node.range[0]`). -/
abbrev Registry := Nat → Option BlockSets

/-- Registry state before any block has been entered. -/
def emptyRegistry : Registry := fun _ => none

/-- JS `Set.add`: append the name when absent, keep the list otherwise. -/
def addName (name : String) (l : List String) : List String :=
  if l.contains name then l else l ++ [name]

/-- Embedding of `setBlockVariableNameSet(blockStart)`: store a fresh
record with two empty sets at `blockStart`, unconditionally replacing
whatever was there. -/
def setBlockVariableNameSet (reg : Registry) (blockStart : Nat) : Registry :=
  fun k => if k = blockStart then some ⟨[], []⟩ else reg k

/-- Embedding of `addVariableNameToSet(violationType, variableName,
blockStart)`: add the name to the chosen set of the record at
`blockStart`; a missing record is the JS `TypeError` on reading a field
of `undefined`. -/
def addVariableNameToSet (reg : Registry) (violationType : VType)
    (variableName : String) (blockStart : Nat) : Except String Registry :=
  match reg blockStart with
  | none => Except.error "TypeError: blockVariableNameSets[blockStart] is undefined"
  | some sets =>
    let sets' :=
      match violationType with
      | VType.array => { sets with array := addName variableName sets.array }
      | VType.object => { sets with object := addName variableName sets.object }
    Except.ok (fun k => if k = blockStart then some sets' else reg k)

/-- Embedding of `getNodeViolationType(node)`: unwrap conditional
expressions (test, then consequent, then alternate, first non-null
result wins), classify array literals unless `allowArrays`, object
literals unless `allowObjects`, and return null on anything else. -/
def getNodeViolationType (cfg : Config) : Expr → Option VType
  | Expr.cond t c a =>
    (getNodeViolationType cfg t).orElse fun _ =>
      (getNodeViolationType cfg c).orElse fun _ =>
        getNodeViolationType cfg a
  | Expr.arrayLit => if !cfg.allowArrays then some VType.array else none
  | Expr.objectLit => if !cfg.allowObjects then some VType.object else none
  | Expr.ident _ => none
  | Expr.other => none

/-- Embedding of `reportVariableViolation(node, name, blockStart)`:
`Object.keys` of a block record is `['array', 'object']` in insertion
order, so the array set is consulted first; the returned kind is the
one whose diagnostic is reported at the node, `none` means no set of
this block contains the name and nothing is reported. A missing record
is the JS `TypeError` from `Object.keys(undefined)`. -/
def reportVariableViolation (reg : Registry) (name : String)
    (blockStart : Nat) : Except String (Option VType) :=
  match reg blockStart with
  | none => Except.error "TypeError: Object.keys of undefined"
  | some blockSets =>
    if blockSets.array.contains name then Except.ok (some VType.array)
    else if blockSets.object.contains name then Except.ok (some VType.object)
    else Except.ok none

/-- Embedding of `findVariableViolation(node, name)`: walk the
innermost-to-outermost block chain with `Array.prototype.find`,
stopping at the first block whose `reportVariableViolation` returns a
truthy kind. The returned option is the single diagnostic emitted (if
any). -/
def findVariableViolation (reg : Registry) (chain : List Nat)
    (name : String) : Except String (Option VType) :=
  match chain with
  | [] => Except.ok none
  | b :: rest =>
    match reportVariableViolation reg name b with
    | Except.error e => Except.error e
    | Except.ok (some vt) => Except.ok (some vt)
    | Except.ok none => findVariableViolation reg rest name

/-- Declarator node as the `VariableDeclarator` handler reads it:
`node.init` (optional), `node.parent.kind` (a string such as "const"),
and `node.id.name`. -/
structure Declarator where
  init : Option Expr
  parentKind : String
  name : String

/-- Embedding of the `VariableDeclarator(node)` handler. `chain` is
`getBlockStatementAncestors(node)` (innermost block first). The handler
returns the updated registry together with the diagnostics it emitted
(it never reports, so that list is provably empty). -/
def variableDeclaratorHandler (cfg : Config) (reg : Registry)
    (chain : List Nat) (d : Declarator) :
    Except String (Registry × List VType) :=
  match d.init with
  | none => Except.ok (reg, [])
  | some init =>
    match chain, getNodeViolationType cfg init with
    | b :: _, some vt =>
      if d.parentKind = "const" then
        (addVariableNameToSet reg vt d.name b).map (fun r => (r, []))
      else Except.ok (reg, [])
    | _, _ => Except.ok (reg, [])

/-- The `value` of a JSX attribute node: absent (boolean shorthand such
as `<Foo bar />`), a plain string literal (`<Foo bar="baz" />`, whose
`.expression` is `undefined`), or an expression container
(`<Foo bar={e} />`). -/
inductive AttrValue where
  | none
  | lit
  | exprContainer (e : Expr)
deriving DecidableEq, Repr

/-- Shared tail of both usage handlers, applied to an extracted value
expression: a bare identifier goes through `findVariableViolation`
against the site's block chain; any other expression is classified
directly and a positive classification is reported. -/
def resolveValueExpr (cfg : Config) (reg : Registry) (chain : List Nat) :
    Expr → Except String (List VType)
  | Expr.ident n => (findVariableViolation reg chain n).map Option.toList
  | e => Except.ok (getNodeViolationType cfg e).toList

/-- Embedding of the `JSXAttribute(node)` handler. `isDOMComponent` is
the external `jsxUtil.isDOMComponent(node.parent)` result, `chain` the
site's innermost-to-outermost block chain. The handler first applies
the `ignoreDOMComponents` skip, then dereferences
`node.value.expression` (a `TypeError` when the attribute has no value)
and `valueNode.type` (a `TypeError` when the value is not an expression
container), and finally resolves the value expression. The returned
list is the diagnostics reported at this attribute. -/
def jsxAttributeHandler (cfg : Config) (reg : Registry)
    (isDOMComponent : Bool) (value : AttrValue) (chain : List Nat) :
    Except String (List VType) :=
  if cfg.ignoreDOMComponents && isDOMComponent then Except.ok []
  else
    match value with
    | AttrValue.none => Except.error "TypeError: node.value is null"
    | AttrValue.lit => Except.error "TypeError: valueNode is undefined"
    | AttrValue.exprContainer e => resolveValueExpr cfg reg chain e

/-- Argument of a `createElement`-style call, as far as the handler
inspects it: a `Literal` node (host-element tag string), an
`ObjectExpression` whose property values are listed in order (`none`
for a property without a `value` field, e.g. a spread element), or any
other node. -/
inductive CallArg where
  | litArg
  | objArg (props : List (Option Expr))
  | otherArg
deriving Repr

/-- Body of the `forEach` over `propsArg.properties`: skip a property
without a value; resolve an identifier value through the block chain;
otherwise report a direct classification at the property node. -/
def processCallProp (cfg : Config) (reg : Registry) (chain : List Nat) :
    Option Expr → Except String (List VType)
  | none => Except.ok []
  | some v => resolveValueExpr cfg reg chain v

/-- Iterate `processCallProp` over the property list, concatenating the
reported diagnostics and propagating the first thrown error. -/
def forEachProps (cfg : Config) (reg : Registry) (chain : List Nat) :
    List (Option Expr) → Except String (List VType)
  | [] => Except.ok []
  | p :: rest =>
    match processCallProp cfg reg chain p with
    | Except.error e => Except.error e
    | Except.ok ds =>
      match forEachProps cfg reg chain rest with
      | Except.error e => Except.error e
      | Except.ok ds' => Except.ok (ds ++ ds')

/-- Whether `node.arguments[0].type === 'Literal'`. -/
def firstArgIsLiteral : List CallArg → Bool
  | CallArg.litArg :: _ => true
  | _ => false

/-- Embedding of the `CallExpression(node)` handler. `isCreate` is the
external `isCreateElement(node, context)` result. The handler bails out
on non-factory calls and empty argument lists, applies the
`ignoreDOMComponents` skip when the first argument is a literal tag,
bails out unless the second argument is an object expression, and then
treats every property value as a usage site. -/
def callExpressionHandler (cfg : Config) (reg : Registry)
    (isCreate : Bool) (args : List CallArg) (chain : List Nat) :
    Except String (List VType) :=
  if !isCreate || args.isEmpty then Except.ok []
  else if cfg.ignoreDOMComponents && firstArgIsLiteral args then Except.ok []
  else
    match args.drop 1 with
    | CallArg.objArg props :: _ => forEachProps cfg reg chain props
    | _ => Except.ok []

/-- Whether the record at `b` contains `name` in the set for `vt`. -/
def memBlockSet (reg : Registry) (b : Nat) (vt : VType) (name : String) : Bool :=
  match reg b with
  | none => false
  | some s =>
    match vt with
    | VType.array => s.array.contains name
    | VType.object => s.object.contains name

/-- Whether the record at `b` contains `name` in either set. -/
def blockContains (reg : Registry) (name : String) (b : Nat) : Bool :=
  memBlockSet reg b VType.array name || memBlockSet reg b VType.object name

/-- The kind a lookup hit at block `b` yields: the array set is
consulted before the object set. -/
def blockKindAt (reg : Registry) (name : String) (b : Nat) : Option VType :=
  if memBlockSet reg b VType.array name then some VType.array
  else if memBlockSet reg b VType.object name then some VType.object
  else none

/-- The configuration flag that exempts a violation kind
(`allowArrays` for `array`, `allowObjects` for `object`). -/
def flagFor (cfg : Config) : VType → Bool
  | VType.array => cfg.allowArrays
  | VType.object => cfg.allowObjects

/-- The name set of a record that tracks a given kind. -/
def setFor (s : BlockSets) : VType → List String
  | VType.array => s.array
  | VType.object => s.object

/-- Registry property: no block record tracks any name under `vt`. -/
def kindFree (reg : Registry) (vt : VType) : Prop :=
  ∀ b s, reg b = some s → setFor s vt = []

/-- Whether an embedded handler result is a thrown JS error. -/
def exceptErrored {α : Type} : Except String α → Bool
  | Except.error _ => true
  | Except.ok _ => false

/-- Extract the registry of a successful update (used only to build
concrete registries for counterexamples; the extracted steps are proved
successful there). -/
def getOkReg (e : Except String Registry) : Registry :=
  match e with
  | Except.ok r => r
  | Except.error _ => emptyRegistry

/-- Registry after entering block 0 and recording `x` under `array`
(as for `const x = [1];` directly inside that block). -/
def c3RegA : Registry :=
  getOkReg (addVariableNameToSet (setBlockVariableNameSet emptyRegistry 0)
    VType.array "x" 0)

/-- Registry after additionally recording `x` under `object` in the
same block (as for a redeclaration `const x = {};`). -/
def c3Reg : Registry :=
  getOkReg (addVariableNameToSet c3RegA VType.object "x" 0)

/-- Registry after entering block 7 and recording `y` under `array`. -/
def c4RegBefore : Registry :=
  getOkReg (addVariableNameToSet (setBlockVariableNameSet emptyRegistry 7)
    VType.array "y" 7)

/-- Registry after entering block 7 a second time. -/
def c4Reg : Registry := setBlockVariableNameSet c4RegBefore 7

/-- Conditional expression with an array consequent and an object
alternate, as in `cond ? [1] : \x7b\x7d`. -/
def mixedCond : Expr := Expr.cond Expr.other Expr.arrayLit Expr.objectLit

/-- Configuration with only `allowArrays` enabled. -/
def cfgAllowArrays : Config := ⟨true, false, false⟩

/-- Default configuration (all options `false`). -/
def cfgDefault : Config := ⟨false, false, false⟩

/-- Registry with an empty record for block 1 and a sibling block 5
whose array set holds `x` (the usage site's chain will be `[1]`). -/
def c8RegSibling : Registry :=
  getOkReg (addVariableNameToSet
    (setBlockVariableNameSet (setBlockVariableNameSet emptyRegistry 1) 5)
    VType.array "x" 5)

/-- Registry with only the empty record for block 1. -/
def c8RegPlain : Registry := setBlockVariableNameSet emptyRegistry 1

/-- Registry for the C1 witness: inner block 1 tracks `x` under
`object`, outer block 2 tracks the same `x` under `array`. -/
def c1Reg : Registry :=
  getOkReg (addVariableNameToSet
    (getOkReg (addVariableNameToSet
      (setBlockVariableNameSet (setBlockVariableNameSet emptyRegistry 1) 2)
      VType.object "x" 1))
    VType.array "x" 2)

/-
Helper lemmas shared by several claim proofs.
-/

/-- Membership in a set after `addName`: the old members plus the new
name. -/
theorem mem_addName (n m : String) (l : List String) :
    m ∈ addName n l ↔ (m ∈ l ∨ m = n) := by
  by_cases h : n ∈ l
  · have hl : addName n l = l := by simp [addName, h]
    rw [hl]
    constructor
    · exact Or.inl
    · rintro (hm | rfl)
      · exact hm
      · exact h
  · have hl : addName n l = l ++ [n] := by simp [addName, h]
    rw [hl]
    simp

/-- Adding a name makes its set contain it. -/
theorem contains_addName_self (n : String) (l : List String) :
    (addName n l).contains n = true := by
  simp [mem_addName]

/-- Characterization of a successful `addVariableNameToSet`: membership
in the result is membership in the input plus the single new entry. -/
theorem mem_addVariableNameToSet (reg : Registry) (vt : VType) (name : String)
    (b : Nat) (reg' : Registry)
    (h : addVariableNameToSet reg vt name b = Except.ok reg') :
    ∀ b' vt' n', memBlockSet reg' b' vt' n' = true ↔
      (memBlockSet reg b' vt' n' = true ∨ (b' = b ∧ vt' = vt ∧ n' = name)) := by
  intro b' vt' n'
  unfold addVariableNameToSet at h
  cases hb : reg b with
  | none => rw [hb] at h; exact absurd h (by simp)
  | some sets =>
    rw [hb] at h
    simp only [Except.ok.injEq] at h
    subst h
    by_cases hbb : b' = b
    · subst hbb
      cases vt <;> cases vt' <;>
        simp [memBlockSet, hb, mem_addName, setFor]
    · cases vt <;>
        simp [memBlockSet, hbb, hb]

/-- C1: identifier resolution at a property-value site walks the
innermost-to-outermost chain of enclosing blocks, returns the kind from
the first block whose registry contains the name in either set (the
array set being consulted first within a block), stops there regardless
of what outer blocks bind, and yields no diagnostic when no block in
the chain contains the name. Stated as: the walk equals taking the
first chain block containing the name and reading its kind. -/
theorem C1_first_block_wins (reg : Registry) (chain : List Nat)
    (name : String) (h : ∀ b ∈ chain, (reg b).isSome = true) :
    findVariableViolation reg chain name =
      Except.ok ((chain.find? (blockContains reg name)).bind
        (blockKindAt reg name)) := by
  induction chain with
  | nil => rfl
  | cons b rest ih =>
    have hb : (reg b).isSome = true := h b (List.mem_cons_self b rest)
    obtain ⟨s, hs⟩ := Option.isSome_iff_exists.mp hb
    have ih' := ih (fun x hx => h x (List.mem_cons_of_mem _ hx))
    by_cases ha : name ∈ s.array
    · simp [findVariableViolation, reportVariableViolation, hs, ha,
        List.find?_cons, blockContains, memBlockSet, blockKindAt]
    · by_cases ho : name ∈ s.object
      · simp [findVariableViolation, reportVariableViolation, hs, ha, ho,
          List.find?_cons, blockContains, memBlockSet, blockKindAt]
      · simp [findVariableViolation, reportVariableViolation, hs, ha, ho,
          List.find?_cons, blockContains, memBlockSet, blockKindAt, ih']

/-- Witness for C1: on the chain `[1, 2]` where the inner block 1 binds
`x` under `object` and the outer block 2 binds the same `x` under
`array`, resolution stops at the inner block and yields `object`. -/
theorem C1_first_block_wins_witness :
    findVariableViolation c1Reg [1, 2] "x" = Except.ok (some VType.object) := by
  have h := C1_first_block_wins c1Reg [1, 2] "x" (by decide)
  exact h.trans (by rfl)

/-- C2: the allocation classifier is a pure total function on
expression nodes; on a ternary it classifies test, then consequent,
then alternate and returns the first non-none result; an array literal
classifies as `array` exactly when `allowArrays` is false; an object
literal classifies as `object` exactly when `allowObjects` is false;
every other shape classifies as none. -/
theorem C2_classifier_spec (cfg : Config) :
    (∀ t c a, getNodeViolationType cfg (Expr.cond t c a) =
      (if (getNodeViolationType cfg t).isSome then getNodeViolationType cfg t
       else if (getNodeViolationType cfg c).isSome then getNodeViolationType cfg c
       else getNodeViolationType cfg a)) ∧
    (getNodeViolationType cfg Expr.arrayLit =
      if cfg.allowArrays then none else some VType.array) ∧
    (getNodeViolationType cfg Expr.objectLit =
      if cfg.allowObjects then none else some VType.object) ∧
    (∀ n, getNodeViolationType cfg (Expr.ident n) = none) ∧
    (getNodeViolationType cfg Expr.other = none) := by
  refine ⟨fun t c a => ?_, ?_, ?_, fun n => rfl, rfl⟩
  · cases ht : getNodeViolationType cfg t <;>
      cases hc : getNodeViolationType cfg c <;>
        simp [getNodeViolationType, ht, hc, Option.orElse]
  · cases h : cfg.allowArrays <;> simp [getNodeViolationType, h]
  · cases h : cfg.allowObjects <;> simp [getNodeViolationType, h]

/-- C3 counterexample: recording `x` under `array` and then under
`object` in the same block leaves `x` a member of both sets — the
earlier membership is not removed, refuting both the at-most-one-set
invariant and last-write-wins. -/
theorem C3_counterexample :
    memBlockSet c3Reg 0 VType.array "x" = true ∧
    memBlockSet c3Reg 0 VType.object "x" = true := by decide

/-- C3 amended: recording a binding adds the name to the chosen kind's
set of the block without ever removing an existing membership, so a
name recorded under both kinds in the same block belongs to both sets
(there is no last-write-wins eviction). -/
theorem C3_recording_is_monotone (reg : Registry) (b : Nat) (vt : VType)
    (name : String) (reg' : Registry)
    (h : addVariableNameToSet reg vt name b = Except.ok reg') :
    memBlockSet reg' b vt name = true ∧
    (∀ b' vt' n', memBlockSet reg b' vt' n' = true →
      memBlockSet reg' b' vt' n' = true) := by
  have hmem := mem_addVariableNameToSet reg vt name b reg' h
  constructor
  · exact (hmem b vt name).mpr (Or.inr ⟨rfl, rfl, rfl⟩)
  · intro b' vt' n' hprev
    exact (hmem b' vt' n').mpr (Or.inl hprev)

/-- Witness for the amended C3: after recording `x` under `object` in
block 0 of `c3RegA` (where `x` is already tracked under `array`), the
new membership holds and the old `array` membership survives. -/
theorem C3_recording_is_monotone_witness :
    memBlockSet c3Reg 0 VType.object "x" = true ∧
    memBlockSet c3Reg 0 VType.array "x" = true := by
  have h := C3_recording_is_monotone c3RegA 0 VType.object "x" c3Reg
    (by rfl)
  exact ⟨h.1, h.2 0 VType.array "x" (by decide)⟩

/-- C4 counterexample: entering block 7 a second time raises no error —
`setBlockVariableNameSet` is a total update — and silently replaces the
record that already tracked `y` under `array` with a fresh empty one. -/
theorem C4_counterexample :
    memBlockSet c4RegBefore 7 VType.array "y" = true ∧
    c4Reg 7 = some ⟨[], []⟩ := by decide

/-- C4 amended: entering a block whose identity is already present is
silently tolerated: the existing record is overwritten with a fresh
empty one, every other record is untouched, and no error is raised. -/
theorem C4_reenter_overwrites (reg : Registry) (b : Nat) :
    setBlockVariableNameSet reg b b = some ⟨[], []⟩ ∧
    (∀ k, k ≠ b → setBlockVariableNameSet reg b k = reg k) := by
  constructor
  · simp [setBlockVariableNameSet]
  · intro k hk
    simp [setBlockVariableNameSet, hk]

/-- Witness for the amended C4: re-entering block 7 on `c4RegBefore`
resets its record and leaves block 9 (absent) unchanged. -/
theorem C4_reenter_overwrites_witness :
    setBlockVariableNameSet c4RegBefore 7 7 = some ⟨[], []⟩ ∧
    setBlockVariableNameSet c4RegBefore 7 9 = c4RegBefore 9 := by
  have h := C4_reenter_overwrites c4RegBefore 7
  exact ⟨h.1, h.2 9 (by decide)⟩

/-- C5: a declaration's binding is recorded if and only if it has an
initializer, sits inside at least one lexical block, uses the `const`
declaration form, and the classifier returns a kind for the
initializer; the name then lands in the registry of the nearest
enclosing block (the head of the innermost-to-outermost chain) under
that kind, and the handler emits no diagnostic. -/
theorem C5_recording_characterization (cfg : Config) (reg : Registry)
    (chain : List Nat) (d : Declarator) (out : Registry × List VType)
    (h : variableDeclaratorHandler cfg reg chain d = Except.ok out) :
    out.2 = [] ∧
    (∀ b vt n, memBlockSet out.1 b vt n = true ↔
      (memBlockSet reg b vt n = true ∨
        (∃ init, d.init = some init ∧ getNodeViolationType cfg init = some vt ∧
          chain.head? = some b ∧ d.parentKind = "const" ∧ n = d.name))) := by
  obtain ⟨dinit, dkind, dname⟩ := d
  cases dinit with
  | none =>
    unfold variableDeclaratorHandler at h
    simp only [Except.ok.injEq] at h
    subst h
    refine ⟨rfl, fun b vt n => ?_⟩
    simp
  | some init =>
    cases chain with
    | nil =>
      unfold variableDeclaratorHandler at h
      simp only [Except.ok.injEq] at h
      subst h
      refine ⟨rfl, fun b vt n => ?_⟩
      simp
    | cons b0 rest =>
      unfold variableDeclaratorHandler at h
      dsimp only at h
      cases hvt : getNodeViolationType cfg init with
      | none =>
        rw [hvt] at h
        simp only [Except.ok.injEq] at h
        subst h
        refine ⟨rfl, fun b vt n => ?_⟩
        simp [hvt]
      | some vt0 =>
        rw [hvt] at h
        dsimp only at h
        by_cases hk : dkind = "const"
        · rw [if_pos hk] at h
          cases hadd : addVariableNameToSet reg vt0 dname b0 with
          | error e => rw [hadd] at h; exact absurd h (by simp [Except.map])
          | ok r =>
            rw [hadd] at h
            simp only [Except.map, Except.ok.injEq] at h
            subst h
            refine ⟨rfl, fun b vt n => ?_⟩
            have hmem := mem_addVariableNameToSet reg vt0 dname b0 r hadd b vt n
            rw [hmem]
            constructor
            · rintro (hold | ⟨rfl, rfl, rfl⟩)
              · exact Or.inl hold
              · exact Or.inr ⟨init, rfl, hvt, rfl, hk, rfl⟩
            · rintro (hold | ⟨init', hinit', hvt', hhead, _, rfl⟩)
              · exact Or.inl hold
              · injection hinit' with he
                subst he
                rw [hvt] at hvt'
                injection hvt' with he'
                simp only [List.head?_cons, Option.some.injEq] at hhead
                exact Or.inr ⟨hhead.symm, he'.symm, rfl⟩
        · rw [if_neg hk] at h
          simp only [Except.ok.injEq] at h
          subst h
          refine ⟨rfl, fun b vt n => ?_⟩
          simp [hk]

/-- Witness for C5: in a registry where block 0 has been entered, the
declarator `const bar = [1]` seen with chain `[0]` is recorded: `bar`
lands in block 0 under `array`, no diagnostic is emitted, and a name
never recorded stays absent. -/
theorem C5_recording_characterization_witness :
    memBlockSet c3RegA 0 VType.array "x" = true ∧
    memBlockSet c3RegA 0 VType.object "x" = false := by
  have h := C5_recording_characterization cfgDefault
    (setBlockVariableNameSet emptyRegistry 0) [0]
    ⟨some Expr.arrayLit, "const", "x"⟩ (c3RegA, []) (by rfl)
  constructor
  · exact (h.2 0 VType.array "x").mpr
      (Or.inr ⟨Expr.arrayLit, rfl, rfl, rfl, rfl, rfl⟩)
  · by_contra hmem
    simp only [Bool.not_eq_false] at hmem
    have := (h.2 0 VType.object "x").mp hmem
    rcases this with hold | ⟨init, hinit, hvt, _, _, _⟩
    · exact absurd hold (by decide)
    · injection hinit with he
      subst he
      exact absurd hvt (by decide)

/-- Resolution only reads registry records at blocks of the supplied
chain: registries that agree on the chain resolve identically. -/
theorem findVariableViolation_congr (reg reg' : Registry)
    (chain : List Nat) (name : String)
    (hagree : ∀ b ∈ chain, reg b = reg' b) :
    findVariableViolation reg chain name =
      findVariableViolation reg' chain name := by
  revert hagree
  induction chain with
  | nil => intro _; rfl
  | cons b rest ih =>
    intro hagree
    have hb := hagree b (List.mem_cons_self b rest)
    have ih' := ih (fun x hx => hagree x (List.mem_cons_of_mem _ hx))
    unfold findVariableViolation reportVariableViolation
    rw [hb]
    cases reg' b with
    | none => rfl
    | some s =>
      by_cases ha : name ∈ s.array
      · simp [ha]
      · by_cases ho : name ∈ s.object
        · simp [ha, ho]
        · simp only [ha, ho]
          simp [ha, ho, ih']

/-- Resolution over a chain of freshly entered (empty) records finds
nothing. -/
theorem findVariableViolation_empty (reg : Registry) (chain : List Nat)
    (name : String) (hempty : ∀ b ∈ chain, reg b = some ⟨[], []⟩) :
    findVariableViolation reg chain name = Except.ok none := by
  revert hempty
  induction chain with
  | nil => intro _; rfl
  | cons b rest ih =>
    intro hempty
    have hb := hempty b (List.mem_cons_self b rest)
    have ih' := ih (fun x hx => hempty x (List.mem_cons_of_mem _ hx))
    unfold findVariableViolation reportVariableViolation
    rw [hb]
    simpa using ih'

/-- C8: lookup for an identifier consults only records of blocks in the
usage site's ancestor chain — two registries that agree on the chain
(but may differ arbitrarily on sibling or descendant blocks) resolve
identically, and a chain whose own records are all empty resolves to
nothing regardless of bindings elsewhere in the registry. -/
theorem C8_only_ancestor_blocks (reg reg' : Registry) (chain : List Nat)
    (name : String) (hagree : ∀ b ∈ chain, reg b = reg' b) :
    findVariableViolation reg chain name =
      findVariableViolation reg' chain name ∧
    ((∀ b ∈ chain, reg b = some ⟨[], []⟩) →
      findVariableViolation reg chain name = Except.ok none) := by
  exact ⟨findVariableViolation_congr reg reg' chain name hagree,
    fun hempty => findVariableViolation_empty reg chain name hempty⟩

/-- Witness for C8: in `c8RegSibling` the sibling block 5 binds `x`
under `array`, yet resolution over the usage site's chain `[1]` finds
nothing. -/
theorem C8_only_ancestor_blocks_witness :
    findVariableViolation c8RegSibling [1] "x" = Except.ok none ∧
    memBlockSet c8RegSibling 5 VType.array "x" = true := by
  have h := C8_only_ancestor_blocks c8RegSibling c8RegPlain [1] "x" (by decide)
  exact ⟨h.2 (by decide), by decide⟩

/-- C6: with `ignoreDOMComponents` true, an attribute site whose owning
element the DOM-ness predicate recognizes as a host element is skipped
entirely, and a factory call whose first argument is a literal tag is
skipped entirely; on user-defined components (predicate false / first
argument not a literal), and whenever `ignoreDOMComponents` is false,
both handlers proceed to the shared resolution of the value
expressions. -/
theorem C6_ignore_dom_components (cfg : Config) (reg : Registry)
    (value : AttrValue) (chain : List Nat) (isCreate : Bool)
    (props : List (Option Expr)) :
    (cfg.ignoreDOMComponents = true →
      jsxAttributeHandler cfg reg true value chain = Except.ok []) ∧
    (cfg.ignoreDOMComponents = true → ∀ rest,
      callExpressionHandler cfg reg isCreate (CallArg.litArg :: rest) chain =
        Except.ok []) ∧
    (∀ isDOM e, cfg.ignoreDOMComponents = false ∨ isDOM = false →
      jsxAttributeHandler cfg reg isDOM (AttrValue.exprContainer e) chain =
        resolveValueExpr cfg reg chain e) ∧
    (∀ a rest, cfg.ignoreDOMComponents = false ∨
        firstArgIsLiteral (a :: CallArg.objArg props :: rest) = false →
      callExpressionHandler cfg reg true (a :: CallArg.objArg props :: rest)
          chain =
        forEachProps cfg reg chain props) := by
  refine ⟨fun hdom => ?_, fun hdom rest => ?_, fun isDOM e hcase => ?_,
    fun a rest hcase => ?_⟩
  · simp [jsxAttributeHandler, hdom]
  · cases isCreate with
    | false => simp [callExpressionHandler]
    | true => simp [callExpressionHandler, hdom, firstArgIsLiteral]
  · rcases hcase with hdom | hdom <;>
      simp [jsxAttributeHandler, hdom, resolveValueExpr]
  · rcases hcase with hdom | hlit <;>
      simp_all [callExpressionHandler, firstArgIsLiteral]

/-- Witness for C6: with `ignoreDOMComponents` on, an array literal
attribute value on a host element yields nothing, while the same value
on the same element under the default configuration is reported. -/
theorem C6_ignore_dom_components_witness :
    jsxAttributeHandler ⟨false, false, true⟩ emptyRegistry true
      (AttrValue.exprContainer Expr.arrayLit) [] = Except.ok [] ∧
    jsxAttributeHandler cfgDefault emptyRegistry true
      (AttrValue.exprContainer Expr.arrayLit) [] = Except.ok [VType.array] := by
  have h1 := C6_ignore_dom_components ⟨false, false, true⟩ emptyRegistry
    (AttrValue.exprContainer Expr.arrayLit) [] true []
  have h2 := C6_ignore_dom_components cfgDefault emptyRegistry
    (AttrValue.exprContainer Expr.arrayLit) [] true []
  exact ⟨h1.1 rfl,
    (h2.2.2.1 true Expr.arrayLit (Or.inl rfl)).trans (by rfl)⟩

/-- Resolution of a single value expression emits at most one
diagnostic: an identifier hit reports once and stops, a direct
classification reports once. -/
theorem resolveValueExpr_length_le_one (cfg : Config) (reg : Registry)
    (chain : List Nat) (e : Expr) (ds : List VType)
    (h : resolveValueExpr cfg reg chain e = Except.ok ds) :
    ds.length ≤ 1 := by
  cases e with
  | ident n =>
    unfold resolveValueExpr at h
    dsimp only at h
    cases hf : findVariableViolation reg chain n with
    | error msg => rw [hf] at h; exact absurd h (by simp [Except.map])
    | ok o =>
      rw [hf] at h
      simp only [Except.map, Except.ok.injEq] at h
      subst h
      cases o <;> simp
  | cond t c a =>
    unfold resolveValueExpr at h
    simp only [Except.ok.injEq] at h
    subst h
    cases getNodeViolationType cfg (Expr.cond t c a) <;> simp
  | arrayLit =>
    unfold resolveValueExpr at h
    simp only [Except.ok.injEq] at h
    subst h
    cases getNodeViolationType cfg Expr.arrayLit <;> simp
  | objectLit =>
    unfold resolveValueExpr at h
    simp only [Except.ok.injEq] at h
    subst h
    cases getNodeViolationType cfg Expr.objectLit <;> simp
  | other =>
    unfold resolveValueExpr at h
    simp only [Except.ok.injEq] at h
    subst h
    cases getNodeViolationType cfg Expr.other <;> simp

/-- C9: a usage site never yields two or more diagnostics in one run:
an attribute site's handler invocation emits at most one diagnostic,
and each factory-call property (one usage site of the properties
object) emits at most one diagnostic. -/
theorem C9_at_most_one_diagnostic (cfg : Config) (reg : Registry)
    (isDOM : Bool) (value : AttrValue) (chain : List Nat)
    (p : Option Expr) (ds ds' : List VType)
    (h1 : jsxAttributeHandler cfg reg isDOM value chain = Except.ok ds)
    (h2 : processCallProp cfg reg chain p = Except.ok ds') :
    ds.length ≤ 1 ∧ ds'.length ≤ 1 := by
  constructor
  · unfold jsxAttributeHandler at h1
    by_cases hskip : (cfg.ignoreDOMComponents && isDOM) = true
    · rw [if_pos hskip] at h1
      simp only [Except.ok.injEq] at h1
      subst h1
      simp
    · rw [if_neg hskip] at h1
      cases value with
      | none => exact absurd h1 (by simp)
      | lit => exact absurd h1 (by simp)
      | exprContainer e =>
        exact resolveValueExpr_length_le_one cfg reg chain e ds h1
  · unfold processCallProp at h2
    cases p with
    | none =>
      simp only [Except.ok.injEq] at h2
      subst h2
      simp
    | some v => exact resolveValueExpr_length_le_one cfg reg chain v ds' h2

/-- Witness for C9: a direct array-literal attribute value and a direct
object-literal call property each produce exactly one diagnostic, hence
at most one. -/
theorem C9_at_most_one_diagnostic_witness :
    ([VType.array] : List VType).length ≤ 1 ∧
    ([VType.object] : List VType).length ≤ 1 := by
  exact C9_at_most_one_diagnostic cfgDefault emptyRegistry false
    (AttrValue.exprContainer Expr.arrayLit) [] (some Expr.objectLit)
    [VType.array] [VType.object] (by rfl) (by rfl)

/-- C10 counterexample: a boolean-shorthand attribute (no value) on a
recognized host element with `ignoreDOMComponents` enabled does NOT
reach the failing dereference — the handler returns cleanly, because
the DOM-ness/configuration check runs before `node.value.expression`
is read, contradicting the claim that the type error fires before any
DOM-ness or configuration check applies. -/
theorem C10_counterexample :
    jsxAttributeHandler ⟨false, false, true⟩ emptyRegistry true
      AttrValue.none [] = Except.ok [] := by rfl

/-- C10 amended: the attribute handler dereferences
`node.value.expression` (and then its `type`) only after the
DOM-ness/configuration skip, so an attribute with no value or with a
plain string-literal value throws a runtime type error exactly when the
skip does not fire; when `ignoreDOMComponents` is true and the owning
element is a recognized host element, such attributes are skipped
without error. -/
theorem C10_dereference_after_skip (cfg : Config) (reg : Registry)
    (isDOM : Bool) (chain : List Nat) (value : AttrValue)
    (hv : value = AttrValue.none ∨ value = AttrValue.lit) :
    ((cfg.ignoreDOMComponents && isDOM) = false →
      exceptErrored (jsxAttributeHandler cfg reg isDOM value chain) = true) ∧
    ((cfg.ignoreDOMComponents && isDOM) = true →
      jsxAttributeHandler cfg reg isDOM value chain = Except.ok []) := by
  constructor
  · intro hskip
    rcases hv with rfl | rfl <;>
      simp [jsxAttributeHandler, hskip, exceptErrored]
  · intro hskip
    rcases hv with rfl | rfl <;>
      simp [jsxAttributeHandler, hskip]

/-- Witness for the amended C10: under the default configuration a
valueless attribute on a user component makes the handler throw. -/
theorem C10_dereference_after_skip_witness :
    exceptErrored (jsxAttributeHandler cfgDefault emptyRegistry false
      AttrValue.none []) = true := by
  exact (C10_dereference_after_skip cfgDefault emptyRegistry false []
    AttrValue.none (Or.inl rfl)).1 rfl

/-- Splitting lemma for the null-coalescing chain of the classifier. -/
theorem orElse_eq_some {α : Type} (a : Option α) (f : Unit → Option α)
    (v : α) (h : a.orElse f = some v) : a = some v ∨ f () = some v := by
  cases a with
  | none => right; simpa [Option.orElse] using h
  | some w => left; simpa [Option.orElse] using h

/-- Any kind the classifier returns has its exemption flag off: with
`allowArrays` (resp. `allowObjects`) set, no expression — directly or
under any nesting of conditionals — classifies as `array` (resp.
`object`). -/
theorem flag_false_of_classify (cfg : Config) (e : Expr) :
    ∀ v, getNodeViolationType cfg e = some v → flagFor cfg v = false := by
  induction e with
  | cond t c a iht ihc iha =>
    intro v h
    simp only [getNodeViolationType] at h
    rcases orElse_eq_some _ _ _ h with h1 | h2
    · exact iht v h1
    · rcases orElse_eq_some _ _ _ h2 with h3 | h4
      · exact ihc v h3
      · exact iha v h4
  | arrayLit =>
    intro v h
    simp only [getNodeViolationType] at h
    cases ha : cfg.allowArrays with
    | true => rw [ha] at h; simp at h
    | false =>
      rw [ha] at h
      simp only [Bool.not_false, if_true, Option.some.injEq] at h
      subst h
      simpa [flagFor] using ha
  | objectLit =>
    intro v h
    simp only [getNodeViolationType] at h
    cases ho : cfg.allowObjects with
    | true => rw [ho] at h; simp at h
    | false =>
      rw [ho] at h
      simp only [Bool.not_false, if_true, Option.some.injEq] at h
      subst h
      simpa [flagFor] using ho
  | ident n => intro v h; simp [getNodeViolationType] at h
  | other => intro v h; simp [getNodeViolationType] at h

/-- Entering a block preserves the absence of a kind (the fresh record
is empty). -/
theorem kindFree_setBlock (reg : Registry) (b : Nat) (vt : VType)
    (h : kindFree reg vt) : kindFree (setBlockVariableNameSet reg b) vt := by
  intro k s hs
  unfold setBlockVariableNameSet at hs
  by_cases hk : k = b
  · rw [if_pos hk] at hs
    injection hs with he
    subst he
    cases vt <;> rfl
  · rw [if_neg hk] at hs
    exact h k s hs

/-- Recording under a different kind preserves the absence of a kind. -/
theorem kindFree_add (reg : Registry) (vt vtRec : VType) (name : String)
    (b : Nat) (reg' : Registry) (hne : vtRec ≠ vt)
    (h : addVariableNameToSet reg vtRec name b = Except.ok reg')
    (hfree : kindFree reg vt) : kindFree reg' vt := by
  intro k s hs
  unfold addVariableNameToSet at h
  cases hb : reg b with
  | none => rw [hb] at h; exact absurd h (by simp)
  | some sets =>
    rw [hb] at h
    simp only [Except.ok.injEq] at h
    subst h
    by_cases hk : k = b
    · simp only [if_pos hk, Option.some.injEq] at hs
      subst hs
      have hbase := hfree b sets hb
      cases vt <;> cases vtRec <;> simp_all [setFor]
    · simp only [if_neg hk] at hs
      exact hfree k s hs

/-- The binding recorder preserves the absence of an exempted kind:
with the kind's flag set the classifier never yields it, so it is never
recorded. -/
theorem kindFree_declarator (cfg : Config) (vt : VType)
    (hflag : flagFor cfg vt = true) (reg : Registry) (chain : List Nat)
    (d : Declarator) (out : Registry × List VType)
    (h : variableDeclaratorHandler cfg reg chain d = Except.ok out)
    (hfree : kindFree reg vt) : kindFree out.1 vt := by
  obtain ⟨dinit, dkind, dname⟩ := d
  cases dinit with
  | none =>
    unfold variableDeclaratorHandler at h
    simp only [Except.ok.injEq] at h
    subst h
    exact hfree
  | some init =>
    cases chain with
    | nil =>
      unfold variableDeclaratorHandler at h
      simp only [Except.ok.injEq] at h
      subst h
      exact hfree
    | cons b0 rest =>
      unfold variableDeclaratorHandler at h
      dsimp only at h
      cases hvt : getNodeViolationType cfg init with
      | none =>
        rw [hvt] at h
        simp only [Except.ok.injEq] at h
        subst h
        exact hfree
      | some vt0 =>
        rw [hvt] at h
        dsimp only at h
        by_cases hk : dkind = "const"
        · rw [if_pos hk] at h
          cases hadd : addVariableNameToSet reg vt0 dname b0 with
          | error e => rw [hadd] at h; exact absurd h (by simp [Except.map])
          | ok r =>
            rw [hadd] at h
            simp only [Except.map, Except.ok.injEq] at h
            subst h
            have hne : vt0 ≠ vt := by
              intro he
              subst he
              rw [flag_false_of_classify cfg init vt0 hvt] at hflag
              exact absurd hflag (by simp)
            exact kindFree_add reg vt vt0 dname b0 r hne hadd hfree
        · rw [if_neg hk] at h
          simp only [Except.ok.injEq] at h
          subst h
          exact hfree

/-- Lookup over a registry free of a kind never reports that kind. -/
theorem findVariableViolation_ne_kind (reg : Registry) (vt : VType)
    (hfree : kindFree reg vt) (chain : List Nat) (name : String) :
    ∀ o, findVariableViolation reg chain name = Except.ok o →
      o ≠ some vt := by
  induction chain with
  | nil =>
    intro o h
    unfold findVariableViolation at h
    simp only [Except.ok.injEq] at h
    subst h
    simp
  | cons b rest ih =>
    intro o h
    unfold findVariableViolation reportVariableViolation at h
    cases hb : reg b with
    | none => rw [hb] at h; exact absurd h (by simp)
    | some s =>
      rw [hb] at h
      dsimp only at h
      have hset := hfree b s hb
      by_cases ha : s.array.contains name = true
      · rw [if_pos ha] at h
        simp only [Except.ok.injEq] at h
        subst h
        cases vt with
        | array => simp [setFor] at hset; simp [hset] at ha
        | object => simp
      · rw [if_neg ha] at h
        by_cases ho : s.object.contains name = true
        · rw [if_pos ho] at h
          simp only [Except.ok.injEq] at h
          subst h
          cases vt with
          | array => simp
          | object => simp [setFor] at hset; simp [hset] at ho
        · rw [if_neg ho] at h
          exact ih o h

/-- Resolution of one value expression never reports an exempted kind
over a registry free of that kind. -/
theorem resolveValueExpr_ne_kind (cfg : Config) (vt : VType)
    (hflag : flagFor cfg vt = true) (reg : Registry)
    (hfree : kindFree reg vt) (chain : List Nat) (e : Expr)
    (ds : List VType) (h : resolveValueExpr cfg reg chain e = Except.ok ds) :
    vt ∉ ds := by
  cases e with
  | ident n =>
    unfold resolveValueExpr at h
    dsimp only at h
    cases hf : findVariableViolation reg chain n with
    | error msg => rw [hf] at h; exact absurd h (by simp [Except.map])
    | ok o =>
      rw [hf] at h
      simp only [Except.map, Except.ok.injEq] at h
      subst h
      have hne := findVariableViolation_ne_kind reg vt hfree chain n o hf
      cases o with
      | none => simp
      | some w =>
        simp only [Option.toList, List.mem_singleton]
        intro he
        exact hne (by rw [he])
  | cond t c a =>
    unfold resolveValueExpr at h
    simp only [Except.ok.injEq] at h
    subst h
    cases hc : getNodeViolationType cfg (Expr.cond t c a) with
    | none => simp
    | some w =>
      simp only [Option.toList, List.mem_singleton]
      intro he
      subst he
      rw [flag_false_of_classify cfg _ vt hc] at hflag
      exact absurd hflag (by simp)
  | arrayLit =>
    unfold resolveValueExpr at h
    simp only [Except.ok.injEq] at h
    subst h
    cases hc : getNodeViolationType cfg Expr.arrayLit with
    | none => simp
    | some w =>
      simp only [Option.toList, List.mem_singleton]
      intro he
      subst he
      rw [flag_false_of_classify cfg _ vt hc] at hflag
      exact absurd hflag (by simp)
  | objectLit =>
    unfold resolveValueExpr at h
    simp only [Except.ok.injEq] at h
    subst h
    cases hc : getNodeViolationType cfg Expr.objectLit with
    | none => simp
    | some w =>
      simp only [Option.toList, List.mem_singleton]
      intro he
      subst he
      rw [flag_false_of_classify cfg _ vt hc] at hflag
      exact absurd hflag (by simp)
  | other =>
    unfold resolveValueExpr at h
    simp only [Except.ok.injEq] at h
    subst h
    simp [getNodeViolationType, Option.toList]

/-- Processing one factory-call property never reports an exempted kind
over a registry free of that kind. -/
theorem processCallProp_ne_kind (cfg : Config) (vt : VType)
    (hflag : flagFor cfg vt = true) (reg : Registry)
    (hfree : kindFree reg vt) (chain : List Nat) (p : Option Expr)
    (ds : List VType) (h : processCallProp cfg reg chain p = Except.ok ds) :
    vt ∉ ds := by
  cases p with
  | none =>
    unfold processCallProp at h
    simp only [Except.ok.injEq] at h
    subst h
    simp
  | some v =>
    exact resolveValueExpr_ne_kind cfg vt hflag reg hfree chain v ds h

/-- Iterating the properties of a factory call never reports an
exempted kind over a registry free of that kind. -/
theorem forEachProps_ne_kind (cfg : Config) (vt : VType)
    (hflag : flagFor cfg vt = true) (reg : Registry)
    (hfree : kindFree reg vt) (chain : List Nat)
    (props : List (Option Expr)) :
    ∀ ds, forEachProps cfg reg chain props = Except.ok ds → vt ∉ ds := by
  induction props with
  | nil =>
    intro ds h
    unfold forEachProps at h
    simp only [Except.ok.injEq] at h
    subst h
    simp
  | cons p rest ih =>
    intro ds h
    unfold forEachProps at h
    cases hp : processCallProp cfg reg chain p with
    | error e => rw [hp] at h; exact absurd h (by simp)
    | ok d1 =>
      rw [hp] at h
      cases hr : forEachProps cfg reg chain rest with
      | error e => rw [hr] at h; exact absurd h (by simp)
      | ok d2 =>
        rw [hr] at h
        simp only [Except.ok.injEq] at h
        subst h
        intro hmem
        rcases List.mem_append.mp hmem with hm | hm
        · exact processCallProp_ne_kind cfg vt hflag reg hfree chain p d1 hp hm
        · exact ih d2 hr hm

/-- C7 counterexample: the two-run noninterference part of the claim
fails. The attribute value `cond ? [1] : \x7b\x7d` produces an `object`
diagnostic when `allowArrays` is true but an `array` diagnostic when it
is false — so enabling `allowArrays` changes the set of Object-kind
diagnostics instead of leaving it identical. -/
theorem C7_counterexample :
    jsxAttributeHandler cfgAllowArrays emptyRegistry false
      (AttrValue.exprContainer mixedCond) [] = Except.ok [VType.object] ∧
    jsxAttributeHandler cfgDefault emptyRegistry false
      (AttrValue.exprContainer mixedCond) [] = Except.ok [VType.array] := by
  exact ⟨rfl, rfl⟩

/-- C7 amended: setting `allowArrays` (resp. `allowObjects`) true
suppresses every diagnostic of that kind, directly and via identifier
indirection — the classifier never yields the kind, traversal state
stays free of it, and neither usage handler ever reports it. The other
kind's diagnostics, however, are not necessarily identical to a run
with the flag false: a conditional mixing both literal kinds classifies
as the other kind once the first is exempted. -/
theorem C7_allow_flag_suppression (vt : VType) (cfg : Config)
    (hflag : flagFor cfg vt = true) :
    (∀ e, getNodeViolationType cfg e ≠ some vt) ∧
    (∀ reg b, kindFree reg vt → kindFree (setBlockVariableNameSet reg b) vt) ∧
    (∀ reg chain d out, kindFree reg vt →
      variableDeclaratorHandler cfg reg chain d = Except.ok out →
      kindFree out.1 vt) ∧
    (∀ reg isDOM value chain ds, kindFree reg vt →
      jsxAttributeHandler cfg reg isDOM value chain = Except.ok ds →
      vt ∉ ds) ∧
    (∀ reg isCreate args chain ds, kindFree reg vt →
      callExpressionHandler cfg reg isCreate args chain = Except.ok ds →
      vt ∉ ds) := by
  refine ⟨?_, ?_, ?_, ?_, ?_⟩
  · intro e hc
    rw [flag_false_of_classify cfg e vt hc] at hflag
    exact absurd hflag (by simp)
  · intro reg b hfree
    exact kindFree_setBlock reg b vt hfree
  · intro reg chain d out hfree h
    exact kindFree_declarator cfg vt hflag reg chain d out h hfree
  · intro reg isDOM value chain ds hfree h
    unfold jsxAttributeHandler at h
    by_cases hskip : (cfg.ignoreDOMComponents && isDOM) = true
    · rw [if_pos hskip] at h
      simp only [Except.ok.injEq] at h
      subst h
      simp
    · rw [if_neg hskip] at h
      cases value with
      | none => exact absurd h (by simp)
      | lit => exact absurd h (by simp)
      | exprContainer e =>
        exact resolveValueExpr_ne_kind cfg vt hflag reg hfree chain e ds h
  · intro reg isCreate args chain ds hfree h
    unfold callExpressionHandler at h
    by_cases hbail : (!isCreate || args.isEmpty) = true
    · rw [if_pos hbail] at h
      simp only [Except.ok.injEq] at h
      subst h
      simp
    · rw [if_neg hbail] at h
      by_cases hskip : (cfg.ignoreDOMComponents && firstArgIsLiteral args) = true
      · rw [if_pos hskip] at h
        simp only [Except.ok.injEq] at h
        subst h
        simp
      · rw [if_neg hskip] at h
        cases hdrop : args.drop 1 with
        | nil =>
          rw [hdrop] at h
          simp only [Except.ok.injEq] at h
          subst h
          simp
        | cons a2 rest2 =>
          rw [hdrop] at h
          cases a2 with
          | objArg props =>
            exact forEachProps_ne_kind cfg vt hflag reg hfree chain props ds h
          | litArg =>
            simp only [Except.ok.injEq] at h
            subst h
            simp
          | otherArg =>
            simp only [Except.ok.injEq] at h
            subst h
            simp

/-- Witness for the amended C7: with `allowArrays` on, an array literal
bound through `const` indirection is not reported (the registry built
by the recorder stays array-free and the attribute handler yields no
diagnostics), and the classifier rejects the array kind outright. -/
theorem C7_allow_flag_suppression_witness :
    getNodeViolationType cfgAllowArrays Expr.arrayLit ≠ some VType.array ∧
    getNodeViolationType cfgAllowArrays mixedCond ≠ some VType.array := by
  have h := C7_allow_flag_suppression VType.array cfgAllowArrays rfl
  exact ⟨h.1 Expr.arrayLit, h.1 mixedCond⟩
